import Mathlib

/-!
# Verification of the query/result parsing core of SublimeYetAnotherCodeSearch

Shallow embedding of `parser.py`: the query lexer (`_search_text_state`,
`_search_quote_state`), the query parser (`parse_query`), the `Search`
model and its serialization (`Search.args`, `Search.query_re`), the result
lexer (`_output_start_state`, `_output_filename_state`,
`_output_linenumber_state`, `_output_line_state`), the result parser
(`parse_search_output`) and the display rendering (`FileResults.__str__`).

The Python lexer is a cursor machine over one immutable string; here each
lex state is a pure function over the remaining character list, with an
explicit `pending` accumulator standing for the span between the cursor
and the token-start marker.  The Python sentinel `_EOF = chr 0` is
modelled faithfully: a literal NUL character in the input compares equal
to the sentinel in the source, so the scanning helpers stop at NUL
exactly as the source does.

State loops are driven by a fuel parameter.  Every iteration of each loop
consumes at least one input character before recursing, so fuel
`input.length + 1` is always sufficient; the zero-fuel branches are
unreachable from the wrappers that supply that fuel.
-/

deriving instance DecidableEq for Except

/-- Python `string.whitespace`. -/
def wsChars : List Char := [' ', '\t', '\n', '\r', '\x0b', '\x0c']

/-- Python `string.digits`. -/
def digitChars : List Char := ['0', '1', '2', '3', '4', '5', '6', '7', '8', '9']

/-- `_Lexer.acceptRun`: split off the longest prefix of characters that are
members of `set`.  The EOF sentinel `chr 0` is not a member of any set used
by the source, so no explicit sentinel check is needed here. -/
def acceptRun (set : List Char) : List Char → List Char × List Char
  | [] => ([], [])
  | c :: cs =>
    if c ∈ set then
      let (a, r) := acceptRun set cs
      (c :: a, r)
    else ([], c :: cs)

/-- `_Lexer.acceptRunIgnoring`: split off the longest prefix of characters
that are not members of `stop`; the source also stops when `next()` returns
a character equal to the `_EOF` sentinel `chr 0`, which a literal NUL in the
input does. -/
def acceptRunIgnoring (stop : List Char) : List Char → List Char × List Char
  | [] => ([], [])
  | c :: cs =>
    if c ∈ stop ∨ c = '\x00' then ([], c :: cs)
    else
      let (a, r) := acceptRunIgnoring stop cs
      (c :: a, r)

/-- `lex.acceptRun(string.whitespace)` followed by `lex.ignore()`. -/
def dropWs (cs : List Char) : List Char := (acceptRun wsChars cs).2

/-- ASCII lowering of one character, as `Char.toLower` does. -/
def charLower (c : Char) : Char :=
  if 'A' ≤ c ∧ c ≤ 'Z' then Char.ofNat (c.toNat + 32) else c

/-- Python `str.lower()`, restricted to ASCII (all strings the parser
compares case-insensitively are ASCII). -/
def pyLower (s : String) : String := ⟨s.data.map charLower⟩

/-- A token of the query lexer: the source uses pairs whose first entry is
one of the strings `text`, `quote`, `flag`. -/
inductive QTok where
  | text (v : String)
  | quote (v : String)
  | flag (v : String)
deriving DecidableEq, Repr

/-- The payload of a token; `parse_query` destructures `(tokType, value)`
pairs and uses `value` positionally. -/
def QTok.val : QTok → String
  | .text v => v
  | .quote v => v
  | .flag v => v

/-- The inner `while True` loop of `_search_text_state`.  `pending` is the
span accumulated since the token-start marker (the first character was
consumed by the `lex.next()` call before the loop).  Returns the emitted
token together with the unconsumed remainder.  Fuel `cs.length + 1`
suffices: every recursive call consumes at least one character. -/
def searchTextInner (pending : List Char) : Nat → List Char → QTok × List Char
  | 0, cs => (.text ⟨pending⟩, cs)
  | fuel + 1, cs =>
    let s := acceptRunIgnoring (wsChars ++ ['\\', ':']) cs
    let p := pending ++ s.1
    match s.2 with
    | ':' :: r =>
      if pyLower ⟨p⟩ = "file" ∨ pyLower ⟨p⟩ = "case" then (.flag ⟨p⟩, r)
      else searchTextInner (p ++ [':']) fuel r
    | '\\' :: r =>
      match r with
      | [] => searchTextInner (p ++ ['\\']) fuel []
      | e :: r' => searchTextInner (p ++ ['\\', e]) fuel r'
    | rest => (.text ⟨p⟩, rest)

/-- `_search_quote_state`: scan a double-quoted span.  `pending` starts as
`['"']` because `_search_text_state` consumed the opening delimiter without
discarding it.  On a closing `"` the emitted token includes both
delimiters; on end-of-input the source emits `lex.curstr() + chr 34`
(a synthetic closing delimiter).  A literal NUL is consumed into the span
(the source's `next()` returns it and the `else` branch fires). -/
def searchQuoteLoop (pending : List Char) : Nat → List Char → QTok × List Char
  | 0, cs => (.quote ⟨pending ++ ['"']⟩, cs)
  | fuel + 1, cs =>
    let s := acceptRunIgnoring ['\\', '"'] cs
    let p := pending ++ s.1
    match s.2 with
    | '"' :: r => (.quote ⟨p ++ ['"']⟩, r)
    | '\\' :: r =>
      match r with
      | [] => searchQuoteLoop (p ++ ['\\']) fuel []
      | e :: r' => searchQuoteLoop (p ++ ['\\', e]) fuel r'
    | c :: r => (.quote ⟨p ++ [c, '"']⟩, r)
    | [] => (.quote ⟨p ++ ['"']⟩, [])

/-- `_search_text_state`, the driving loop of the query lexer: skip
whitespace, stop at end-of-input (or at a literal NUL, which the source
compares equal to its sentinel), enter the quote state on `"`, otherwise
run the inner text loop; each emitted token is followed by a restart. -/
def searchTextState : Nat → List Char → List QTok
  | 0, _ => []
  | fuel + 1, cs =>
    match dropWs cs with
    | [] => []
    | c :: r =>
      if c = '\x00' then []
      else if c = '"' then
        let s := searchQuoteLoop ['"'] (r.length + 1) r
        s.1 :: searchTextState fuel s.2
      else
        let s := searchTextInner [c] (r.length + 1) r
        s.1 :: searchTextState fuel s.2

/-- `_Lexer(text, _search_text_state).run()`. -/
def searchLex (s : String) : List QTok := searchTextState (s.length + 1) s.data

/-- The `Search` object: `query` (list of terms), `file` (optional file
pattern, `none` for Python `None`) and `case` (case sensitivity, named
`caseSensitive` here because `case` is a Lean keyword).  `Search()` in the
source defaults to `query=[]`, `file=None`, `case=True`. -/
structure Search where
  query : List String
  file : Option String
  caseSensitive : Bool
deriving DecidableEq, Repr

/-- `Search.query_re`: a single term is passed through verbatim, several
terms become a parenthesised alternation joined by `|`. -/
def Search.query_re (s : Search) : String :=
  match s.query with
  | [q] => q
  | qs => "(" ++ String.intercalate "|" qs ++ ")"

/-- `Search.args`, with the `AttributeError` modelled as `Except.error`.
Python truthiness is preserved: `if not self.query` fails exactly on the
empty list, and `if self.file` is false both for `None` and for the empty
string. -/
def Search.args (s : Search) : Except String (List String) :=
  if s.query = [] then .error "No query to run"
  else
    let fileArgs : List String :=
      match s.file with
      | some f => if f ≠ "" then ["-f", f] else []
      | none => []
    let caseArgs : List String := if s.caseSensitive then [] else ["-i"]
    .ok (fileArgs ++ caseArgs ++ [s.query_re])

/-- Python `s[1:-1]`: drop the first and the last character (empty result
for strings of length at most two, exactly as the slice behaves). -/
def strip1 (s : String) : String := ⟨(s.data.drop 1).dropLast⟩

/-- The token-consuming loop of `parse_query`.  A `text` value is appended
to the terms as is; a `quote` value is appended with its delimiters sliced
off; a `flag` consumes the *next* token as its value — and when there is no
next token the source's `next(tokens)` raises `StopIteration`, which the
surrounding `try` of the whole loop catches: the trailing flag is silently
dropped and the current result returned.  An unrecognised flag word raises
(`Except.error` here); the source's final `unsupported token type` branch
is unreachable because `QTok` is closed over the three kinds the query
lexer emits. -/
def parseQueryTokens : Search → List QTok → Except String Search
  | res, [] => .ok res
  | res, .text v :: ts => parseQueryTokens ⟨res.query ++ [v], res.file, res.caseSensitive⟩ ts
  | res, .quote v :: ts =>
    parseQueryTokens ⟨res.query ++ [strip1 v], res.file, res.caseSensitive⟩ ts
  | res, .flag f :: ts =>
    match ts with
    | [] => .ok res
    | t :: ts' =>
      let flag := pyLower f
      let value := t.val
      if flag = "case" then
        parseQueryTokens ⟨res.query, res.file, pyLower value != "no"⟩ ts'
      else if flag = "file" then
        if value ≠ "*" then parseQueryTokens ⟨res.query, some value, res.caseSensitive⟩ ts'
        else parseQueryTokens res ts'
      else .error ("Unsupported flag value: " ++ flag)

/-- `parse_query`: lex the text and fold the tokens into a fresh `Search`. -/
def parse_query (s : String) : Except String Search :=
  parseQueryTokens ⟨[], none, true⟩ (searchLex s)

/-- A token of the result lexer (`_OutputToken` in the source). -/
inductive OTok where
  | fileName (v : String)
  | lineNumber (v : String)
  | line (v : String)
deriving DecidableEq, Repr

/-- The payload of a result token; `_line_parts` destructures the pairs
positionally and ignores the kind. -/
def OTok.val : OTok → String
  | .fileName v => v
  | .lineNumber v => v
  | .line v => v

/-- The result lexer: `_output_start_state` checks for end-of-input (the
`peek` also matches a literal NUL, which compares equal to the source's
sentinel) and otherwise hands over to `_output_filename_state`,
`_output_linenumber_state` and `_output_line_state` in turn; each of those
emits one token and checks its separator, raising a lexing error (modelled
as `Except.error`) on any structural violation.  One iteration per result
line; every iteration consumes at least one character, so fuel
`cs.length + 1` is always sufficient. -/
def outputLexRun : Nat → List Char → Except String (List OTok)
  | 0, _ => .ok []
  | fuel + 1, cs =>
    match cs with
    | [] => .ok []
    | c :: _ =>
      if c = '\x00' then .ok []
      else
        let sf := acceptRunIgnoring [':'] cs
        if sf.1 = [] then .error "Expected to read a filename."
        else
          match sf.2 with
          | ':' :: r1 =>
            let sn := acceptRun digitChars r1
            if sn.1 = [] then .error "Expected line number as digits."
            else
              match sn.2 with
              | ':' :: r2 =>
                let sl := acceptRunIgnoring ['\n'] r2
                if sl.1 = [] then .error "Expected the found line."
                else
                  let toks := [OTok.fileName ⟨sf.1⟩, OTok.lineNumber ⟨sn.1⟩, OTok.line ⟨sl.1⟩]
                  match sl.2 with
                  | [] => .ok toks
                  | c3 :: r3 =>
                    if c3 = '\n' ∨ c3 = '\x00' then
                      (toks ++ ·) <$> outputLexRun fuel r3
                    else .error "Expected a newline after reading the found line."
              | _ => .error "Expected to see a \":\" after reading the line number."
          | _ => .error "Expected to see a \":\" after reading the filename."

/-- Python `int` on the digit-only strings the result lexer emits. -/
def digitsToNat (s : String) : Nat :=
  s.data.foldl (fun n c => n * 10 + (c.toNat - '0'.toNat)) 0

/-- Group the flat token list into `(filename, linenumber, line)` triples,
as the `zip_longest(tokens, tokens, tokens)` grouper recipe plus
`_line_parts` does.  The lexer emits tokens in threes, so the catch-all
for a leftover of fewer than three tokens is unreachable. -/
def tokenTriples : List OTok → List (String × Nat × String)
  | a :: b :: c :: rest => (a.val, digitsToNat b.val, c.val) :: tokenTriples rest
  | _ => []

/-- One file's parsed results: `filename` and the `(line number, line)`
pairs.  The source's `__init__` asserts both are non-empty; the parser
only ever constructs them that way. -/
structure FileResults where
  filename : String
  matchList : List (Nat × String)
deriving DecidableEq, Repr

/-- The accumulation loop of `parse_search_output`: `curF`/`curM` are
`cur_filename`/`cur_matches`; a change of filename pushes the open group
and starts a new one, and the final open group is pushed at the end. -/
def groupTriples (curF : String) (curM : List (Nat × String)) :
    List (String × Nat × String) → List FileResults
  | [] => [⟨curF, curM⟩]
  | (f, n, l) :: ts =>
    if curF ≠ f then ⟨curF, curM⟩ :: groupTriples f [(n, l)] ts
    else groupTriples curF (curM ++ [(n, l)]) ts

/-- `parse_search_output`: lex, return the empty list when there are no
tokens at all, otherwise seed the grouping loop with the first triple. -/
def parse_search_output (s : String) : Except String (List FileResults) :=
  match outputLexRun (s.length + 1) s.data with
  | .error e => .error e
  | .ok toks =>
    match tokenTriples toks with
    | [] => .ok []
    | (f, n, l) :: rest => .ok (groupTriples f [(n, l)] rest)

/-- Right-justify in a field of `w` characters, as the format spec
`: >w` does (no truncation when the string is longer). -/
def rjust (w : Nat) (s : String) : String :=
  ⟨List.replicate (w - s.length) ' '⟩ ++ s

/-- The row template of `FileResults.__str__`: the line number
right-justified to width five, a colon, a space, the matched line. -/
def lineTmpl (n : Nat) (l : String) : String := rjust 5 (toString n) ++ ": " ++ l

/-- The gap-marker width `int(math.log10(prev_linenum)) + 1` of the
source: the decimal digit count of `n`.  Exact for `n ≥ 1`; the source's
float `log10` raises on zero and is exact on the line-number range. -/
def numDigits (n : Nat) : Nat := (Nat.toDigits 10 n).length

/-- The gap marker row: a run of dots of width `numDigits prev`,
right-justified to width five. -/
def gapRow (prev : Nat) : String := rjust 5 ⟨List.replicate (numDigits prev) '.'⟩

/-- The `for` loop of `FileResults.__str__`: `accRows` is `res_matches`,
`prev` is `prev_linenum`; a gap marker is appended whenever the next line
number is not the previous plus one, then the row itself. -/
def renderAcc (accRows : List String) (prev : Nat) : List (Nat × String) → List String
  | [] => accRows
  | (n, l) :: rest =>
    let acc2 := if prev + 1 ≠ n then accRows ++ [gapRow prev] else accRows
    renderAcc (acc2 ++ [lineTmpl n l]) n rest

/-- `FileResults.__str__`: the filename, a colon, and the rendered rows
joined by newlines.  On an empty match list the source's `next(matches)`
raises `StopIteration`, modelled as `none`; the parser never builds an
empty group. -/
def fileResultsStr (fr : FileResults) : Option String :=
  match fr.matchList with
  | [] => none
  | (n, l) :: rest =>
    some (fr.filename ++ ":\n" ++ String.intercalate "\n" (renderAcc [lineTmpl n l] n rest))

/-! ## Specification-side definitions

These restate, in the spec's words, the shapes the claims assert; the
theorems below compare them with the source-side definitions above. -/

/-- Modelled from the spec's serialization sentence (amended for the
empty-string filter): optional `-f` and the filter when a non-empty
filter is set, then `-i` when case-insensitive, then exactly one
positional pattern — the single term verbatim, or the terms joined by
`|` inside parentheses. -/
def specArgsShape (q : Search) : List String :=
  (match q.file with
   | some f => if f ≠ "" then ["-f", f] else []
   | none => []) ++
  (if q.caseSensitive then [] else ["-i"]) ++
  [match q.query with
   | [t] => t
   | qs => "(" ++ String.intercalate "|" qs ++ ")"]

/-- Modelled from the spec's rendering sentence: each matched line becomes
its row, and between two consecutive matched lines a gap marker row is
inserted exactly when the next line number is not the previous plus one. -/
def specRows : List (Nat × String) → List String
  | [] => []
  | [(n, l)] => [lineTmpl n l]
  | (n, l) :: (m, t) :: rest =>
    lineTmpl n l :: ((if n + 1 ≠ m then [gapRow n] else []) ++ specRows ((m, t) :: rest))

theorem dropWhile_length_le {α : Type} (p : α → Bool) (l : List α) :
    (l.dropWhile p).length ≤ l.length := by
  induction l with
  | nil => simp [List.dropWhile]
  | cons a l ih =>
    rw [List.dropWhile_cons]
    split
    · exact Nat.le_succ_of_le ih
    · exact Nat.le_refl _

/-- Modelled from the spec's grouping sentence: the first triple opens a
group that absorbs the longest run of following triples with the same
filename, and the remainder is grouped in the same way. -/
def specGroups (ts : List (String × Nat × String)) : List FileResults :=
  match ts with
  | [] => []
  | (f, n, l) :: rest =>
    ⟨f, (n, l) :: (rest.takeWhile (fun t => decide (t.1 = f))).map (fun t => t.2)⟩
      :: specGroups (rest.dropWhile (fun t => decide (t.1 = f)))
termination_by ts.length
decreasing_by
  simp only [List.length_cons]
  exact Nat.lt_succ_of_le (dropWhile_length_le _ _)

/-- The rows contributed by the renderer's loop for the matches after the
first, written without the accumulator. -/
def renderSteps (prev : Nat) : List (Nat × String) → List String
  | [] => []
  | (n, l) :: rest =>
    (if prev + 1 ≠ n then [gapRow prev] else []) ++ (lineTmpl n l :: renderSteps n rest)

/-- A token the query lexer can emit: every `flag` token's word lowers to
`file` or `case`, since `_search_text_state` emits a flag only after that
very test succeeds. -/
def goodTok : QTok → Prop
  | .flag f => pyLower f = "file" ∨ pyLower f = "case"
  | _ => True

/-! ## Helper lemmas -/

/-- The accumulator loop of the renderer appends `renderSteps` after the
rows already accumulated. -/
theorem renderAcc_eq (ms : List (Nat × String)) :
    ∀ (acc : List String) (prev : Nat),
      renderAcc acc prev ms = acc ++ renderSteps prev ms := by
  induction ms with
  | nil => intro acc prev; simp [renderAcc, renderSteps]
  | cons p rest ih =>
    intro acc prev
    obtain ⟨n, l⟩ := p
    by_cases h : prev + 1 ≠ n
    · simp only [renderAcc, renderSteps, if_pos h]
      rw [ih]
      simp
    · simp only [renderAcc, renderSteps, if_neg h]
      rw [ih]
      simp

/-- The spec-side rows coincide with the loop rows once the first row is
split off. -/
theorem specRows_eq (rest : List (Nat × String)) :
    ∀ (n : Nat) (l : String),
      specRows ((n, l) :: rest) = lineTmpl n l :: renderSteps n rest := by
  induction rest with
  | nil => intro n l; simp [specRows, renderSteps]
  | cons q rest2 ih =>
    intro n l
    obtain ⟨m, t⟩ := q
    simp only [specRows, renderSteps]
    rw [ih]

/-- The grouping loop equals the spec-side grouping once seeded with an
open group: the open group absorbs the run of equal filenames and the
remainder is grouped from scratch. -/
theorem groupTriples_spec (ts : List (String × Nat × String)) :
    ∀ (f : String) (ms : List (Nat × String)),
      groupTriples f ms ts =
        ⟨f, ms ++ (ts.takeWhile (fun t => decide (t.1 = f))).map (fun t => t.2)⟩
          :: specGroups (ts.dropWhile (fun t => decide (t.1 = f))) := by
  induction ts with
  | nil =>
    intro f ms
    simp [groupTriples, specGroups]
  | cons t rest ih =>
    intro f ms
    obtain ⟨g, n, l⟩ := t
    by_cases hg : f = g
    · subst hg
      simp only [groupTriples, ne_eq, not_true_eq_false, if_false, ite_false]
      rw [ih]
      simp [List.takeWhile_cons, List.dropWhile_cons]
    · have hg2 : ¬ (g = f) := fun h => hg h.symm
      simp only [groupTriples]
      rw [if_pos hg]
      rw [ih]
      simp [List.takeWhile_cons, List.dropWhile_cons, specGroups, hg2]

/-! ## Claim theorems -/

/-- C4: serializing a `Search` whose terms list is empty fails with the
empty-query error `No query to run` before any argument is produced,
whatever the file filter and case flag are; it is a precondition check on
serialization, not a lexing error. -/
theorem c4_empty_query_error (f : Option String) (c : Bool) :
    Search.args ⟨[], f, c⟩ = .error "No query to run" := rfl

/-- C9: parsing the empty result text returns the empty list of groups and
no error. -/
theorem c9_empty_results : parse_search_output "" = .ok [] := by decide

/-- C7: rendering a `FileResults` group (non-empty matches with positive
line numbers, which is all the parser constructs and the float `log10` of
the source accepts) produces the filename header and then exactly the
spec-side rows: one row per matched line, with a gap marker row — a
right-justified run of dots of width the digit count of the previous line
number — inserted between two consecutive matches exactly when the next
line number is not the previous plus one. -/
theorem c7_gap_markers (fr : FileResults) (hne : fr.matchList ≠ [])
    (hpos : ∀ p ∈ fr.matchList, 0 < p.1) :
    fileResultsStr fr =
      some (fr.filename ++ ":\n" ++ String.intercalate "\n" (specRows fr.matchList)) := by
  obtain ⟨fn, ms⟩ := fr
  cases ms with
  | nil => exact absurd rfl hne
  | cons p rest =>
    obtain ⟨n, l⟩ := p
    simp only [fileResultsStr]
    rw [renderAcc_eq, specRows_eq]
    rfl

/-- C7 witness: the group with lines 1, 2 and 5 satisfies the hypotheses,
the theorem applies, and the rendered text contains a single-dot gap
marker row between the line-2 and line-5 rows. -/
theorem c7_gap_markers_witness :
    (⟨"f", [(1, "a"), (2, "b"), (5, "c")]⟩ : FileResults).matchList ≠ [] ∧
    fileResultsStr ⟨"f", [(1, "a"), (2, "b"), (5, "c")]⟩ =
      some ((⟨"f", [(1, "a"), (2, "b"), (5, "c")]⟩ : FileResults).filename ++ ":\n" ++
        String.intercalate "\n" (specRows [(1, "a"), (2, "b"), (5, "c")])) ∧
    fileResultsStr ⟨"f", [(1, "a"), (2, "b"), (5, "c")]⟩ =
      some "f:\n    1: a\n    2: b\n    .\n    5: c" :=
  ⟨by decide,
   c7_gap_markers ⟨"f", [(1, "a"), (2, "b"), (5, "c")]⟩ (by decide) (by decide),
   by decide⟩

/-- C8: for every result text, parsing groups the lexed triples by runs of
equal consecutive filenames, in encountered order (the spec-side
`specGroups`); in particular the three-line example yields exactly two
groups, `a.txt` with two lines and `b.txt` with one. -/
theorem c8_grouping :
    (∀ s : String,
        parse_search_output s =
          Except.map (fun toks => specGroups (tokenTriples toks))
            (outputLexRun (s.length + 1) s.data))
    ∧ parse_search_output "a.txt:1:Too many cooks\na.txt:2:TOO MANY cooks\nb.txt:34:How to cook\n" =
        .ok [⟨"a.txt", [(1, "Too many cooks"), (2, "TOO MANY cooks")]⟩,
             ⟨"b.txt", [(34, "How to cook")]⟩] := by
  constructor
  · intro s
    cases h : outputLexRun (s.length + 1) s.data with
    | error e => simp [parse_search_output, h, Except.map]
    | ok toks =>
      cases h2 : tokenTriples toks with
      | nil => simp [parse_search_output, h, h2, Except.map, specGroups]
      | cons t rest =>
        obtain ⟨f, n, l⟩ := t
        simp only [parse_search_output, h, h2, Except.map]
        rw [groupTriples_spec]
        conv_rhs => rw [specGroups]
        simp
  · decide

/-- C3 counterexample: a `Search` whose file filter is set to the empty
string serializes with no `-f` at all (Python `if self.file` is false on
the empty string), not to the claimed `-f` plus filter shape. -/
theorem c3_counterexample :
    Search.args ⟨["hello"], some "", true⟩ = .ok ["hello"] ∧
    (["hello"] : List String) ≠ ["-f", "", "hello"] :=
  ⟨by decide, by decide⟩

/-- C3 amended: for every `Search` with a non-empty terms list, the
argument vector is exactly `-f` and the filter when the filter is set to a
non-empty string, then `-i` when case-insensitive, then exactly one
positional pattern argument — the single term verbatim, or the terms
joined by `|` inside parentheses. -/
theorem c3_amended_args_shape (q : Search) (h : q.query ≠ []) :
    q.args = .ok (specArgsShape q) := by
  unfold Search.args specArgsShape Search.query_re
  rw [if_neg h]

/-- C3 amended witness. -/
theorem c3_amended_witness :
    (⟨["hello"], some ".*py$", false⟩ : Search).query ≠ [] ∧
    Search.args ⟨["hello"], some ".*py$", false⟩ =
      .ok (specArgsShape ⟨["hello"], some ".*py$", false⟩) ∧
    specArgsShape ⟨["hello"], some ".*py$", false⟩ = ["-f", ".*py$", "-i", "hello"] :=
  ⟨by decide, c3_amended_args_shape ⟨["hello"], some ".*py$", false⟩ (by decide), by decide⟩

/-- C2 counterexample: `parse_query` on `foo file:` — whose token sequence
ends with a `Flag` token and no value token — succeeds with the flag
silently dropped instead of failing with a parse error: the
`StopIteration` of the inner `next(tokens)` is caught by the loop's own
`except` clause. -/
theorem c2_counterexample :
    parse_query "foo file:" = .ok ⟨["foo"], none, true⟩ := by decide

/-- C2 amended: a trailing `Flag` token with no following value token is
silently dropped — the parse succeeds and returns the query built so far —
and in particular `foo file:` lexes to a text token followed by a bare
flag token and parses to the one-term query with no file filter. -/
theorem c2_amended_trailing_flag_dropped :
    (∀ (res : Search) (f : String), parseQueryTokens res [QTok.flag f] = .ok res)
    ∧ searchLex "foo file:" = [QTok.text "foo", QTok.flag "file"]
    ∧ parse_query "foo file:" = .ok ⟨["foo"], none, true⟩ :=
  ⟨fun _ _ => rfl, by decide, by decide⟩

/-- C6 counterexample: after `case:no` sets case sensitivity to false, a
later `case:yes` does not leave it at its current setting — the code sets
it back to true (`res.case = True` in the `else` branch). -/
theorem c6_counterexample :
    parse_query "a case:no" = .ok ⟨["a"], none, false⟩ ∧
    parse_query "a case:no case:yes" = .ok ⟨["a"], none, true⟩ :=
  ⟨by decide, by decide⟩

/-- C6 amended: case sensitivity defaults to true and is set to false by a
`case` flag exactly when the flag's value lowered equals `no`; a `case`
flag with any other value resets case sensitivity to true (it does not
leave it at its current setting). -/
theorem c6_amended_case_flag_resets :
    (∀ (res : Search) (f : String) (t : QTok) (ts : List QTok), pyLower f = "case" →
        parseQueryTokens res (QTok.flag f :: t :: ts) =
          parseQueryTokens ⟨res.query, res.file, pyLower t.val != "no"⟩ ts)
    ∧ parse_query "someVariableName" = .ok ⟨["someVariableName"], none, true⟩
    ∧ parse_query "someVariableName case:no" = .ok ⟨["someVariableName"], none, false⟩ := by
  refine ⟨fun res f t ts hf => ?_, by decide, by decide⟩
  simp [parseQueryTokens, hf]

/-- C6 amended witness: a query currently case-insensitive is reset to
case-sensitive by a `case` flag whose value is `yes`. -/
theorem c6_amended_witness :
    pyLower "case" = "case" ∧
    parseQueryTokens ⟨["a"], none, false⟩ [QTok.flag "case", QTok.text "yes"] =
      parseQueryTokens ⟨["a"], none, pyLower (QTok.text "yes").val != "no"⟩ [] ∧
    parseQueryTokens ⟨["a"], none, false⟩ [QTok.flag "case", QTok.text "yes"] =
      .ok ⟨["a"], none, true⟩ :=
  ⟨by decide,
   c6_amended_case_flag_resets.1 ⟨["a"], none, false⟩ "case" (QTok.text "yes") [] (by decide),
   by decide⟩

/-- C10: when a `file` or `case` flag's value token is a quoted phrase,
the parser uses the raw token value including the surrounding `"`
delimiters (delimiter stripping happens only for quote tokens appended as
search terms); in particular `file:` followed by the three-character quote
`"x"` sets the file filter to that three-character string, not to `x`. -/
theorem c10_flag_value_raw_quote :
    (∀ (res : Search) (f v : String) (ts : List QTok), pyLower f = "file" → v ≠ "*" →
        parseQueryTokens res (QTok.flag f :: QTok.quote v :: ts) =
          parseQueryTokens ⟨res.query, some v, res.caseSensitive⟩ ts)
    ∧ (∀ (res : Search) (f v : String) (ts : List QTok), pyLower f = "case" →
        parseQueryTokens res (QTok.flag f :: QTok.quote v :: ts) =
          parseQueryTokens ⟨res.query, res.file, pyLower v != "no"⟩ ts)
    ∧ parse_query "file:\"x\"" = .ok ⟨[], some "\"x\"", true⟩
    ∧ ("\"x\"" : String) ≠ "x" := by
  refine ⟨fun res f v ts hf hv => ?_, fun res f v ts hf => ?_, by decide, by decide⟩
  · simp [parseQueryTokens, hf, QTok.val, hv]
  · simp [parseQueryTokens, hf, QTok.val]

/-- C10 witness. -/
theorem c10_flag_value_raw_quote_witness :
    pyLower "file" = "file" ∧ ("\"x\"" : String) ≠ "*" ∧
    parseQueryTokens ⟨[], none, true⟩ [QTok.flag "file", QTok.quote "\"x\""] =
      parseQueryTokens ⟨[], some "\"x\"", true⟩ [] :=
  ⟨by decide, by decide,
   c10_flag_value_raw_quote.1 ⟨[], none, true⟩ "file" "\"x\"" [] (by decide) (by decide)⟩

/-! ## Lexer invariants used for claim C5 -/

theorem searchTextInner_good (fuel : Nat) :
    ∀ (pending cs : List Char), goodTok (searchTextInner pending fuel cs).1 := by
  induction fuel with
  | zero => intro pending cs; trivial
  | succ fuel ih =>
    intro pending cs
    simp only [searchTextInner]
    split
    · split
      · next hcond => exact hcond
      · exact ih _ _
    · split
      · exact ih _ _
      · exact ih _ _
    · trivial

theorem searchQuoteLoop_quote (fuel : Nat) :
    ∀ (pending cs : List Char), ∃ v, (searchQuoteLoop pending fuel cs).1 = .quote v := by
  induction fuel with
  | zero => intro pending cs; exact ⟨_, rfl⟩
  | succ fuel ih =>
    intro pending cs
    simp only [searchQuoteLoop]
    split
    · exact ⟨_, rfl⟩
    · split
      · exact ih _ _
      · exact ih _ _
    · exact ⟨_, rfl⟩
    · exact ⟨_, rfl⟩

theorem searchTextState_good (fuel : Nat) :
    ∀ (cs : List Char) (t : QTok), t ∈ searchTextState fuel cs → goodTok t := by
  induction fuel with
  | zero => intro cs t ht; simp [searchTextState] at ht
  | succ fuel ih =>
    intro cs t ht
    simp only [searchTextState] at ht
    split at ht
    · simp at ht
    · split at ht
      · simp at ht
      · split at ht
        · rcases List.mem_cons.mp ht with h | h
          · obtain ⟨v, hv⟩ := searchQuoteLoop_quote _ _ _
            rw [h, hv]
            trivial
          · exact ih _ _ h
        · rcases List.mem_cons.mp ht with h | h
          · rw [h]
            exact searchTextInner_good _ _ _
          · exact ih _ _ h

/-- On a token list all of whose flags lower to `file` or `case` — which
is everything the query lexer emits — the parse loop never reaches an
error branch. -/
theorem parseQueryTokens_ok (n : Nat) :
    ∀ (toks : List QTok), toks.length ≤ n →
      ∀ (res : Search), (∀ t ∈ toks, goodTok t) →
        ∃ r, parseQueryTokens res toks = .ok r := by
  induction n with
  | zero =>
    intro toks hlen res hgood
    have h0 : toks = [] := List.eq_nil_of_length_eq_zero (Nat.le_zero.mp hlen)
    subst h0
    exact ⟨res, rfl⟩
  | succ n ih =>
    intro toks hlen res hgood
    cases toks with
    | nil => exact ⟨res, rfl⟩
    | cons t ts =>
      have hlen1 : ts.length ≤ n := by
        simp only [List.length_cons] at hlen
        omega
      cases t with
      | text v =>
        simp only [parseQueryTokens]
        exact ih ts hlen1 _ (fun u hu => hgood u (List.mem_cons_of_mem _ hu))
      | quote v =>
        simp only [parseQueryTokens]
        exact ih ts hlen1 _ (fun u hu => hgood u (List.mem_cons_of_mem _ hu))
      | flag f =>
        cases ts with
        | nil => exact ⟨res, rfl⟩
        | cons t2 ts2 =>
          have hf : pyLower f = "file" ∨ pyLower f = "case" :=
            hgood (.flag f) (List.mem_cons_self _ _)
          have hlen2 : ts2.length ≤ n := by
            simp only [List.length_cons] at hlen
            omega
          have hgood2 : ∀ u ∈ ts2, goodTok u := fun u hu =>
            hgood u (List.mem_cons_of_mem _ (List.mem_cons_of_mem _ hu))
          simp only [parseQueryTokens]
          rcases hf with hf | hf
          · rw [hf, if_neg (by decide), if_pos rfl]
            by_cases hv : t2.val ≠ "*"
            · rw [if_pos hv]
              exact ih ts2 hlen2 _ hgood2
            · rw [if_neg hv]
              exact ih ts2 hlen2 _ hgood2
          · rw [hf, if_pos rfl]
            exact ih ts2 hlen2 _ hgood2

/-- C5: `parse_query` never raises — for every query string it returns a
`Search` — and the quote lexer, on reaching end-of-input inside an open
quote, emits the accumulated span with a synthetic trailing `"` appended
as a quote token; in particular the unterminated `"Hello` is accepted and
parses to the single term `Hello`. -/
theorem c5_unterminated_quote_accepted :
    (∀ s : String, ∃ r, parse_query s = .ok r)
    ∧ (∀ (pending : List Char) (fuel : Nat),
        searchQuoteLoop pending fuel [] = (.quote ⟨pending ++ ['"']⟩, []))
    ∧ parse_query "\"Hello" = .ok ⟨["Hello"], none, true⟩ := by
  refine ⟨fun s => ?_, fun pending fuel => ?_, by decide⟩
  · exact parseQueryTokens_ok (searchLex s).length (searchLex s) (Nat.le_refl _) _
      (fun t ht => searchTextState_good _ _ t ht)
  · cases fuel with
    | zero => rfl
    | succ fuel => simp [searchQuoteLoop, acceptRunIgnoring]

/-! ## Helper lemmas for claim C1 -/

theorem acceptRunIgnoring_append (stop : List Char) (d : Char) (hd : d ∈ stop ∨ d = '\x00') :
    ∀ (xs rest : List Char), (∀ c ∈ xs, ¬(c ∈ stop ∨ c = '\x00')) →
      acceptRunIgnoring stop (xs ++ d :: rest) = (xs, d :: rest) := by
  intro xs
  induction xs with
  | nil => intro rest hx; simp [acceptRunIgnoring, hd]
  | cons c xs ih =>
    intro rest hx
    have hc : ¬(c ∈ stop ∨ c = '\x00') := hx c (List.mem_cons_self _ _)
    simp only [List.cons_append, acceptRunIgnoring, List.append_eq]
    rw [if_neg hc, ih rest (fun u hu => hx u (List.mem_cons_of_mem _ hu))]

/-- The quote state consumes a clean span (no backslash, quote or NUL) up
to its closing delimiter in one pass and emits the delimited span. -/
theorem searchQuoteLoop_clean (l : List Char)
    (hl : ∀ c ∈ l, ¬(c ∈ ['\\', '"'] ∨ c = '\x00')) (rest : List Char) (fuel : Nat) :
    searchQuoteLoop ['"'] (fuel + 1) (l ++ '"' :: rest) =
      (.quote ⟨'"' :: (l ++ ['"'])⟩, rest) := by
  simp only [searchQuoteLoop]
  rw [acceptRunIgnoring_append ['\\', '"'] '"' (by decide) l rest hl]
  simp

theorem searchTextState_nil (fuel : Nat) : searchTextState fuel [] = [] := by
  cases fuel with
  | zero => rfl
  | succ fuel => rfl

theorem dropWs_quote_cons (cs : List Char) : dropWs ('"' :: cs) = '"' :: cs := by
  simp [dropWs, acceptRun, wsChars]

/-- A query that starts with a quote over a clean span lexes to exactly
that one quote token. -/
theorem searchTextState_quote_start (fuel : Nat) (l : List Char)
    (hl : ∀ c ∈ l, ¬(c ∈ ['\\', '"'] ∨ c = '\x00')) :
    searchTextState (fuel + 1) ('"' :: (l ++ ['"'])) =
      [QTok.quote ⟨'"' :: (l ++ ['"'])⟩] := by
  simp only [searchTextState, dropWs_quote_cons]
  rw [show (l ++ ['"'] : List Char) = l ++ '"' :: [] from rfl]
  rw [searchQuoteLoop_clean l hl [] _]
  rw [searchTextState_nil]
  simp

/-- C1 counterexample: on the phrase with escaped inner quotes, the parser
strips the surrounding delimiters but keeps the backslash escape
sequences verbatim — the resulting term is not the claimed unescaped
string. -/
theorem c1_counterexample :
    parse_query "\"Hello, \\\"World\\\"\" printf" =
      .ok ⟨["Hello, \\\"World\\\"", "printf"], none, true⟩ ∧
    ("Hello, \\\"World\\\"" : String) ≠ "Hello, \"World\"" :=
  ⟨by decide, by decide⟩

/-- C1 amended: a quoted phrase is appended to the terms with its
surrounding `"` delimiters stripped and its inner characters — including
backslash escape sequences — kept verbatim: every quote token contributes
the `s[1:-1]` slice of its value, every delimiter-free quoted span parses
to exactly itself, and the example with escaped quotes keeps its
backslashes. -/
theorem c1_amended_quote_strip_keeps_escapes :
    (∀ (res : Search) (v : String) (ts : List QTok),
        parseQueryTokens res (QTok.quote v :: ts) =
          parseQueryTokens ⟨res.query ++ [strip1 v], res.file, res.caseSensitive⟩ ts)
    ∧ (∀ s : String, (∀ c ∈ s.data, ¬(c ∈ ['\\', '"'] ∨ c = '\x00')) →
        parse_query ("\"" ++ s ++ "\"") = .ok ⟨[s], none, true⟩)
    ∧ parse_query "\"Hello, \\\"World\\\"\" printf" =
        .ok ⟨["Hello, \\\"World\\\"", "printf"], none, true⟩ := by
  refine ⟨fun res v ts => rfl, fun s hs => ?_, by decide⟩
  obtain ⟨l⟩ := s
  have hq : ("\"" ++ String.mk l ++ "\"") = String.mk ('"' :: (l ++ ['"'])) := rfl
  rw [hq]
  show parseQueryTokens ⟨[], none, true⟩
    (searchTextState ((String.mk ('"' :: (l ++ ['"']))).length + 1)
      (String.mk ('"' :: (l ++ ['"']))).data) = _
  have hlen : (String.mk ('"' :: (l ++ ['"']))).length = l.length + 2 := by
    show ('"' :: (l ++ ['"'])).length = l.length + 2
    simp
  have hdata : (String.mk ('"' :: (l ++ ['"']))).data = '"' :: (l ++ ['"']) := rfl
  rw [hlen, hdata]
  rw [searchTextState_quote_start (l.length + 2) l hs]
  simp only [parseQueryTokens]
  have hstrip : strip1 ⟨'"' :: (l ++ ['"'])⟩ = String.mk l := by
    simp [strip1, List.dropLast_concat]
  rw [hstrip]
  simp

/-- C1 amended witness: a clean quoted phrase parses to exactly its span
with the delimiters stripped. -/
theorem c1_amended_witness :
    (∀ c ∈ ("Hello, World" : String).data, ¬(c ∈ ['\\', '"'] ∨ c = '\x00')) ∧
    parse_query ("\"" ++ "Hello, World" ++ "\"") = .ok ⟨["Hello, World"], none, true⟩ :=
  ⟨by decide, c1_amended_quote_strip_keeps_escapes.2.1 "Hello, World" (by decide)⟩
